import Mathlib

/-!
Verification of the URL-shortener core (Django app `urlshortener`) against its
specification.  The Python source in `urlshortener/views.py` and
`urlshortener/models.py` is shallowly embedded below: pure helpers become Lean
functions, the Django ORM calls the views perform become explicit operations on
a `Store` (a list of records), and the request handlers become state-passing
functions.  External library behaviour that the views depend on
(`urllib.parse.urlsplit`, `re.match`, `random.sample`, Django's `URLField`
validation) is embedded at the level of detail the views exercise.
-/

namespace UrlShortener

/-! ## Character classes and the short-url regex

`VALID_SHORT_URL_REGEX = r'(?P<short_url>^[A-Za-z0-9]{1,32}$)'`, used through
`re.match`.  In Python, `$` matches at the end of the string *or* just before a
newline at the end of the string, so the embedding of a successful `re.match`
is: some prefix of 1 to 32 characters from `[A-Za-z0-9]` is followed either by
the end of the string or by a single final newline character. -/

/-- The character class `[A-Za-z0-9]` of the short-url regex. -/
def isShortUrlChar (c : Char) : Bool :=
  ('A' ≤ c && c ≤ 'Z') || ('a' ≤ c && c ≤ 'z') || ('0' ≤ c && c ≤ '9')

/-- Embedding of `re.match(VALID_SHORT_URL_REGEX, s) is not None`:
the regex engine finds some `k` with `1 ≤ k ≤ 32` such that the first `k`
characters are in `[A-Za-z0-9]` and the remainder is empty or a lone trailing
newline (Python `$` semantics). -/
def re_match_valid_short_url (s : String) : Bool :=
  (List.range (s.data.length + 1)).any fun k =>
    decide (1 ≤ k) && decide (k ≤ 32) && (s.data.take k).all isShortUrlChar &&
      (decide (s.data.drop k = []) || decide (s.data.drop k = [Char.ofNat 10]))

/-- Source `is_valid_short_url` from `views.py`: the regex must match and the code
must not be the literal reserved word `api`. -/
def is_valid_short_url (short_url : String) : Bool :=
  if re_match_valid_short_url short_url = false then false
  else if short_url = "api" then false
  else true

/-! ## `urllib.parse.urlsplit` netloc extraction and the Normalizer

`convert_to_absolute_url` only consumes `urlsplit(url).netloc`, so only the
scheme-splitting and netloc-extraction part of `urlsplit` is embedded.
`urlsplit` raises `ValueError` on a netloc containing `[` without `]` (or
vice versa); the `except:` clause of `convert_to_absolute_url` then returns
the input unchanged. -/

/-- Characters legal in a URL scheme after the first (`scheme_chars` in
`urllib.parse`): letters, digits, `+`, `-`, `.`. -/
def isSchemeChar (c : Char) : Bool :=
  ('A' ≤ c && c ≤ 'Z') || ('a' ≤ c && c ≤ 'z') || ('0' ≤ c && c ≤ '9') ||
    c = '+' || c = '-' || c = '.'

/-- Strip a leading `scheme:` if the part before the first `:` is nonempty and
made of scheme characters (the scheme-splitting step of `urlsplit`); returns
the rest of the URL. -/
def stripScheme (s : List Char) : List Char :=
  match s.findIdx? (· = ':') with
  | none => s
  | some i => if 0 < i && (s.take i).all isSchemeChar then s.drop (i + 1) else s

/-- Helper `_splitnetloc` of `urllib.parse`: everything after `//` up to the first `/`, `?` or `#`. -/
def splitnetloc (s : List Char) : List Char :=
  s.takeWhile fun c => !(c = '/' || c = '?' || c = '#')

/-- Embedding of `urlsplit(url).netloc`: `none` when `urlsplit` raises `ValueError`
(unbalanced square bracket inside the netloc), otherwise the netloc, which is
empty unless `//` follows the scheme. -/
def urlsplit_netloc (url : String) : Option (List Char) :=
  let rest := stripScheme url.data
  match rest with
  | '/' :: '/' :: tail =>
    let netloc := splitnetloc tail
    if (netloc.contains '[' && !netloc.contains ']') ||
        (netloc.contains ']' && !netloc.contains '[') then
      none
    else
      some netloc
  | _ => some []

/-- Source `convert_to_absolute_url` from `views.py`: return the URL unchanged when
`urlsplit(url).netloc` is nonempty, prepend `http://` when it is empty, and
return the URL unchanged when `urlsplit` raises. -/
def convert_to_absolute_url (url : String) : String :=
  match urlsplit_netloc url with
  | some (_ :: _) => url
  | some [] => "http://" ++ url
  | none => url

/-! ## Data model and Mapping Store

`UrlRecord` (`models.py`): `long_url` (URLField, `max_length=2048`),
`short_url` (CharField, `max_length=32`, declared *without* `unique=True`),
`visit_count` (IntegerField, `default=0`).  `last_activity_time` is an
auto-updated timestamp the claims do not mention and is not embedded.  The
persistent store is embedded as the list of rows of the `urlrecords` table;
since the model declares no uniqueness constraint, an INSERT (Django
`serializer.save()` / `Model.save()` on a fresh row) appends unconditionally. -/

def MAX_LONG_URL_LENGTH : Nat := 2048

def MAX_SHORT_URL_LENGTH : Nat := 32

structure UrlRecord where
  long_url : String
  short_url : String
  visit_count : Nat
deriving DecidableEq, Repr

/-- The rows of the `urlrecords` table. -/
abbrev Store := List UrlRecord

/-- Embedding of `UrlRecord.objects.filter(short_url=code).exists()`. -/
def filterExists (store : Store) (code : String) : Bool :=
  store.any fun r => r.short_url = code

/-- The exceptions `UrlRecord.objects.get` raises, plus an arbitrary internal
store fault (any other exception escaping the ORM call). -/
inductive StoreExc where
  | doesNotExist
  | multipleObjectsReturned
  | internalFault (msg : String)
deriving DecidableEq, Repr

/-- Embedding of `UrlRecord.objects.get(short_url=code)`: the unique matching row, or
`DoesNotExist` / `MultipleObjectsReturned`. -/
def objectsGet (store : Store) (code : String) : Except StoreExc UrlRecord :=
  match store.filter fun r => r.short_url = code with
  | [] => .error .doesNotExist
  | [r] => .ok r
  | _ :: _ :: _ => .error .multipleObjectsReturned

/-- Saving a fresh row (`serializer.save()` in `create`): the table has no
uniqueness constraint on `short_url`, so the insert always succeeds. -/
def insertRecord (store : Store) (r : UrlRecord) : Store :=
  store ++ [r]

/-- Embedding of `record.save()` on a row previously fetched by `objectsGet store c` with
`c = r.short_url`: write the mutated fields back to that row.  (Only used
after a successful `objectsGet`, when exactly one row matches the code.) -/
def saveUpdated (store : Store) (r : UrlRecord) : Store :=
  store.map fun x => if x.short_url = r.short_url then r else x

/-! ## Code Generator

`generate_random_short_url` draws `random.sample(CHAR_SET, length)` up to
`RETRY_LIMIT = 5` times, returning the first candidate for which
`UrlRecord.objects.filter(short_url=...).exists()` is false, and raises
`RuntimeError` when all five draws collide.  `random.sample` selects `length`
positions of `CHAR_SET` without replacement; its randomness is embedded as a
stream of index choices (`draws : Nat → List Nat`, one list per attempt),
each index taken modulo the number of characters still available. -/

/-- Python `string.ascii_letters + string.digits`. -/
def CHAR_SET : List Char :=
  "abcdefghijklmnopqrstuvwxyzABCDEFGHIJKLMNOPQRSTUVWXYZ0123456789".data

def RETRY_LIMIT : Nat := 5

def DEFAULT_SHORT_URL_LENGTH : Nat := 6

/-- Embedding of `random.sample(pool, n)` driven by explicit index choices: pick the
`(i % size)`-th remaining element, remove it, recurse.  Selection is without
replacement, hence from a duplicate-free pool the result is duplicate-free. -/
def sampleK (pool : List Char) : Nat → List Nat → List Char
  | 0, _ => []
  | n + 1, idxs =>
    match h : pool.length with
    | 0 => []
    | _ + 1 =>
      let i := idxs.headD 0 % pool.length
      pool.get ⟨i, Nat.mod_lt _ (by omega)⟩ ::
        sampleK (pool.eraseIdx i) n idxs.tail

/-- Outcome of `generate_random_short_url`: a code, or the `RuntimeError`
raised after exhausting the retry budget. -/
inductive GenResult where
  | ok (code : String)
  | exhausted
deriving DecidableEq, Repr

/-- The candidate drawn at a given attempt. -/
def candidate (len : Nat) (draws : Nat → List Nat) (attempt : Nat) : String :=
  String.mk (sampleK CHAR_SET len (draws attempt))

/-- The retry loop of `generate_random_short_url`; also counts the existence
checks made against the store. -/
def genLoop (store : Store) (len : Nat) (draws : Nat → List Nat) :
    Nat → Nat → Nat → GenResult × Nat
  | _, 0, checks => (.exhausted, checks)
  | attempt, remaining + 1, checks =>
    let cand := candidate len draws attempt
    if filterExists store cand then
      genLoop store len draws (attempt + 1) remaining (checks + 1)
    else
      (.ok cand, checks + 1)

/-- Source `generate_random_short_url` from `views.py`, returning the result together
with the number of store existence checks performed. -/
def generate_random_short_url (store : Store) (draws : Nat → List Nat)
    (len : Nat := DEFAULT_SHORT_URL_LENGTH) : GenResult × Nat :=
  genLoop store len draws 0 RETRY_LIMIT 0

/-! ## Long-url validation and the serializer

`is_valid_long_url` delegates to Django's `URLField().clean`, an external
library validator whose full regex is out of scope for every claim here; it is
embedded at the level the views rely on: the string must be an absolute URL
(`scheme://host...` with a scheme Django's `URLValidator` accepts and a
nonempty host).  The view then rejects cleaned URLs longer than
`MAX_LONG_URL_LENGTH`. -/

/-- Model of `django.forms.URLField().clean(url)` succeeding: one of the
schemes accepted by Django's default `URLValidator` followed by `://` and a
nonempty host part. -/
def djangoURLFieldClean (url : String) : Bool :=
  (["http", "https", "ftp", "ftps"].any fun s =>
    List.isPrefixOf (s ++ "://").data url.data) &&
    match urlsplit_netloc url with
    | some (_ :: _) => true
    | _ => false

/-- Source `is_valid_long_url` from `views.py`: `URLField` validation succeeds and
the cleaned URL is at most `MAX_LONG_URL_LENGTH` characters. -/
def is_valid_long_url (url : String) : Bool :=
  if djangoURLFieldClean url = false then false
  else if MAX_LONG_URL_LENGTH < url.data.length then false
  else true

/-- Model of `UrlRecordSerializer(data=data).is_valid()` for the fields
`(long_url, short_url, visit_count)`: `long_url` revalidated as a URL within
the model's `max_length`, `short_url` a nonblank string within `max_length`.
`validated_data` equals the input data on success. -/
def serializer_is_valid (long_url short_url : String) : Bool :=
  djangoURLFieldClean long_url && decide (long_url.data.length ≤ MAX_LONG_URL_LENGTH) &&
    decide (1 ≤ short_url.data.length) && decide (short_url.data.length ≤ MAX_SHORT_URL_LENGTH)

/-! ## Allocation Engine: `UrlRecordListCreateView.create`

The handler's outcome, embedded without the HTTP envelope: each
`UrlAPIErrorResponse` reason becomes a constructor.  The handler returns the
response together with the store it leaves behind. -/

inductive CreateResult where
  | created (r : UrlRecord)
  | invalidLongUrl (long_url : String)
  | invalidShortUrl (short_url : String)
  | shortUrlAlreadyExists (short_url : String)
  | malformedData
deriving DecidableEq, Repr

/-- Source `UrlRecordListCreateView.create` from `views.py`.  `long_url₀` and
`short_url₀` are `request.data.get('long_url', '')` and
`request.data.get('short_url', '')`; `draws` feeds `random.sample` when a
code must be generated.  Returns the response and the resulting store. -/
def create (store : Store) (draws : Nat → List Nat)
    (long_url₀ short_url₀ : String) : CreateResult × Store :=
  let long_url := convert_to_absolute_url long_url₀
  if is_valid_long_url long_url = false then
    (.invalidLongUrl long_url, store)
  else
    match (if short_url₀ = "" then (generate_random_short_url store draws).1
           else .ok short_url₀) with
    | .exhausted => (.invalidShortUrl "", store)
    | .ok short_url =>
      if is_valid_short_url short_url = false then
        (.invalidShortUrl short_url, store)
      else if serializer_is_valid long_url short_url = false then
        (.malformedData, store)
      else if filterExists store short_url then
        (.shortUrlAlreadyExists short_url, store)
      else
        let r : UrlRecord := ⟨long_url, short_url, 0⟩
        (.created r, insertRecord store r)

/-! ## Resolution Engine: `handle_redirect` and `UrlRecordRetrieveView` -/

/-- Outcome of `handle_redirect`: a 302 redirect to the stored target, or the
404 `redirect_failed.html` page. -/
inductive RedirectResult where
  | redirect (location : String)
  | notFound
deriving DecidableEq, Repr

/-- Source `handle_redirect` from `views.py`: fetch the record, increment
`visit_count` in Python, `save()` it back, and redirect to its `long_url`;
on `DoesNotExist` or `MultipleObjectsReturned` fall through to the 404 page.
The increment is a read-modify-write performed by the view, not an atomic
store-side update. -/
def handle_redirect (store : Store) (short_url : String) :
    RedirectResult × Store :=
  match objectsGet store short_url with
  | .ok record =>
    let record' : UrlRecord := { record with visit_count := record.visit_count + 1 }
    (.redirect record'.long_url, saveUpdated store record')
  | .error _ => (.notFound, store)

/-- Outcome of `UrlRecordRetrieveView.get`, without the HTTP envelope. -/
inductive RetrieveResult where
  | data (r : UrlRecord)
  | mappingNotExists (short_url : String)
  | invalidShortUrl (short_url : String)
deriving DecidableEq, Repr

/-- The lookup performed inside the `try:` of `UrlRecordRetrieveView.get`, in
an environment that may inject an arbitrary store fault (`fault`): when the
environment is healthy the result is `objectsGet`, otherwise the lookup
raises that fault. -/
def retrieveGet (store : Store) (fault : Option String) (short_url : String) :
    Except StoreExc UrlRecord :=
  match fault with
  | some msg => .error (.internalFault msg)
  | none => objectsGet store short_url

/-- Source `UrlRecordRetrieveView.get` from `views.py`, after the short_url has been
extracted from the request: validate the code, then run the lookup under a
bare `except:` that turns *every* exception into the
`SHORT_URL_MAPPING_NOT_EXISTS` 404 response. -/
def retrieveView (store : Store) (fault : Option String) (short_url : String) :
    RetrieveResult :=
  if is_valid_short_url short_url then
    match retrieveGet store fault short_url with
    | .ok record => .data record
    | .error _ => .mappingNotExists short_url
  else
    .invalidShortUrl short_url

/-! ## Concurrency: interleaved executions against the shared store

Each request handler runs on its own thread; all shared state is the store.
A handler's store interactions are its atomic steps (each ORM call is one
step), and a concurrent execution is an interleaving of those steps.  For
`create` the critical section is the existence check (`filter(...).exists()`)
followed, when the check passed, by the insert (`serializer.save()`); for
`handle_redirect` it is the read (`objects.get`) followed by the write-back
(`record.save()`). -/

/-- Progress of one in-flight `create` critical section. -/
inductive CreatePhase where
  | beforeCheck
  | beforeInsert
  | succeeded
  | conflicted
deriving DecidableEq, Repr

/-- One thread running the collision-check-then-insert section of `create`
for a fixed record. -/
structure CreateSession where
  record : UrlRecord
  phase : CreatePhase
deriving DecidableEq, Repr

/-- One atomic step of a `create` session against the shared store. -/
def stepCreate (s : CreateSession) (store : Store) : CreateSession × Store :=
  match s.phase with
  | .beforeCheck =>
    if filterExists store s.record.short_url then
      ({ s with phase := .conflicted }, store)
    else
      ({ s with phase := .beforeInsert }, store)
  | .beforeInsert => ({ s with phase := .succeeded }, insertRecord store s.record)
  | .succeeded => (s, store)
  | .conflicted => (s, store)

/-- Run two `create` sessions under a schedule (`false` steps the first
session, `true` the second). -/
def runCreateSchedule :
    List Bool → CreateSession → CreateSession → Store →
      CreateSession × CreateSession × Store
  | [], a, b, store => (a, b, store)
  | false :: rest, a, b, store =>
    let (a', store') := stepCreate a store
    runCreateSchedule rest a' b store'
  | true :: rest, a, b, store =>
    let (b', store') := stepCreate b store
    runCreateSchedule rest a b' store'

/-- Progress of one in-flight `handle_redirect` counter update. -/
inductive RedirectPhase where
  | beforeRead
  | beforeWrite (fetched : UrlRecord)
  | done
  | failed
deriving DecidableEq, Repr

/-- One thread running the fetch-increment-save section of `handle_redirect`
for a fixed code. -/
structure RedirectSession where
  code : String
  phase : RedirectPhase
deriving DecidableEq, Repr

/-- One atomic step of a redirect session: the read (`objects.get`) or the
write-back (`record.save()` after the in-Python `visit_count += 1`). -/
def stepRedirect (s : RedirectSession) (store : Store) : RedirectSession × Store :=
  match s.phase with
  | .beforeRead =>
    match objectsGet store s.code with
    | .ok r => ({ s with phase := .beforeWrite r }, store)
    | .error _ => ({ s with phase := .failed }, store)
  | .beforeWrite r =>
    ({ s with phase := .done },
      saveUpdated store { r with visit_count := r.visit_count + 1 })
  | .done => (s, store)
  | .failed => (s, store)

/-- Run two redirect sessions under a schedule (`false` steps the first
session, `true` the second). -/
def runRedirectSchedule :
    List Bool → RedirectSession → RedirectSession → Store →
      RedirectSession × RedirectSession × Store
  | [], a, b, store => (a, b, store)
  | false :: rest, a, b, store =>
    let (a', store') := stepRedirect a store
    runRedirectSchedule rest a' b store'
  | true :: rest, a, b, store =>
    let (b', store') := stepRedirect b store
    runRedirectSchedule rest a b' store'

/-- The per-code uniqueness invariant: no two rows share a `short_url`. -/
def uniqueCodes (store : Store) : Prop :=
  (store.map fun r => r.short_url).Nodup

instance : DecidablePred uniqueCodes := fun store => by
  unfold uniqueCodes
  infer_instance

/-! ## Properties of the Code Validator -/

/-- Characterization of the embedded `re.match`: the regex accepts exactly the
strings of 1 to 32 characters from `[A-Za-z0-9]`, optionally followed by one
trailing newline (which Python's `$` anchor tolerates). -/
lemma re_match_valid_short_url_iff (s : String) :
    re_match_valid_short_url s = true ↔
      ((1 ≤ s.data.length ∧ s.data.length ≤ 32 ∧ s.data.all isShortUrlChar = true) ∨
        (∃ t : List Char, s.data = t ++ [Char.ofNat 10] ∧ 1 ≤ t.length ∧ t.length ≤ 32 ∧
          t.all isShortUrlChar = true)) := by
  simp only [re_match_valid_short_url, List.any_eq_true, List.mem_range, Bool.and_eq_true,
    Bool.or_eq_true, decide_eq_true_eq]
  constructor
  · rintro ⟨k, hk, ⟨⟨h1, h2⟩, h3⟩, h4 | h4⟩
    · left
      have hlen : s.data.length ≤ k := List.drop_eq_nil_iff.mp h4
      have hkeq : k = s.data.length := by omega
      subst hkeq
      refine ⟨by omega, h2, ?_⟩
      rw [List.take_length] at h3
      exact h3
    · right
      refine ⟨s.data.take k, ?_, ?_, ?_, h3⟩
      · have := List.take_append_drop k s.data
        rw [h4] at this
        exact this.symm
      · have hlt : k < s.data.length := by
          by_contra hge
          have : s.data.drop k = [] := List.drop_eq_nil_of_le (by omega)
          rw [this] at h4
          exact absurd h4 (by simp)
        have : (s.data.take k).length = k := List.length_take_of_le (by omega)
        omega
      · have hlt : k < s.data.length := by
          by_contra hge
          have : s.data.drop k = [] := List.drop_eq_nil_of_le (by omega)
          rw [this] at h4
          exact absurd h4 (by simp)
        have : (s.data.take k).length = k := List.length_take_of_le (by omega)
        omega
  · rintro (⟨h1, h2, h3⟩ | ⟨t, ht, h1, h2, h3⟩)
    · exact ⟨s.data.length, by omega, ⟨⟨h1, h2⟩, by rw [List.take_length]; exact h3⟩,
        Or.inl (by simp)⟩
    · refine ⟨t.length, ?_, ⟨⟨h1, h2⟩, ?_⟩, Or.inr ?_⟩
      · rw [ht]; simp; omega
      · rw [ht, List.take_left]
        exact h3
      · rw [ht, List.drop_left]

/-- A valid short url is nonempty. -/
lemma is_valid_short_url_length_pos {s : String}
    (h : is_valid_short_url s = true) : 1 ≤ s.data.length := by
  unfold is_valid_short_url at h
  split at h
  · exact absurd h (by simp)
  · rename_i hmatch
    rcases (re_match_valid_short_url_iff s).mp (by
      revert hmatch
      cases re_match_valid_short_url s <;> simp) with ⟨h1, _, _⟩ | ⟨t, ht, h1, _, _⟩
    · exact h1
    · rw [ht]; simp

/-- A string of 1 to 32 `[A-Za-z0-9]` characters other than `api` is a valid
short url. -/
lemma is_valid_short_url_of_charset {s : String}
    (h1 : 1 ≤ s.data.length) (h2 : s.data.length ≤ 32)
    (h3 : s.data.all isShortUrlChar = true) (h4 : s ≠ "api") :
    is_valid_short_url s = true := by
  unfold is_valid_short_url
  have hm : re_match_valid_short_url s = true :=
    (re_match_valid_short_url_iff s).mpr (Or.inl ⟨h1, h2, h3⟩)
  rw [hm]
  simp [h4]

/-- C3.  The claim that `is_valid_short_url` accepts exactly the 1-to-32
character `[A-Za-z0-9]` strings other than `api` fails: `re.match` with a
`$`-anchored pattern also accepts a trailing newline, so `"abc\n"` — a string
with a control character at the end — is accepted. -/
theorem C3_counterexample :
    is_valid_short_url "abc\n" = true ∧
      ¬("abc\n".data.all isShortUrlChar = true) := by
  constructor
  · decide
  · decide

/-- C3 (amended).  `is_valid_short_url s` is true iff `s` is not the reserved
word `api` and `s` is 1 to 32 characters of `[A-Za-z0-9]` *optionally followed
by a single trailing newline* (the one control character Python's `$` anchor
admits); in particular a 32-character code of valid characters is accepted, a
33-character one is rejected, `Api` is accepted and `api` is rejected. -/
theorem C3_is_valid_short_url_characterization :
    (∀ s : String, is_valid_short_url s = true ↔
      (((1 ≤ s.data.length ∧ s.data.length ≤ 32 ∧ s.data.all isShortUrlChar = true) ∨
        (∃ t : List Char, s.data = t ++ [Char.ofNat 10] ∧ 1 ≤ t.length ∧ t.length ≤ 32 ∧
          t.all isShortUrlChar = true)) ∧ s ≠ "api")) ∧
    is_valid_short_url "aaaaaaaaaaaaaaaaaaaaaaaaaaaaaaaa" = true ∧
    is_valid_short_url "aaaaaaaaaaaaaaaaaaaaaaaaaaaaaaaaa" = false ∧
    is_valid_short_url "Api" = true ∧
    is_valid_short_url "api" = false := by
  refine ⟨?_, by decide, by decide, by decide, by decide⟩
  intro s
  unfold is_valid_short_url
  constructor
  · intro h
    split at h
    · exact absurd h (by simp)
    · rename_i hmatch
      split at h
      · exact absurd h (by simp)
      · rename_i hapi
        refine ⟨(re_match_valid_short_url_iff s).mp ?_, hapi⟩
        revert hmatch
        cases re_match_valid_short_url s <;> simp
  · rintro ⟨hre, hapi⟩
    have hm : re_match_valid_short_url s = true :=
      (re_match_valid_short_url_iff s).mpr hre
    rw [hm]
    simp [hapi]

/-- C3 witness: the amended characterization applied at the concrete code
`xy`. -/
theorem C3_witness : is_valid_short_url "xy" = true :=
  (C3_is_valid_short_url_characterization.1 "xy").mpr ⟨Or.inl (by decide), by decide⟩

/-! ## Properties of the Normalizer -/

/-- Convenience: does `urlsplit` succeed with a nonempty netloc? -/
def hasNetloc (url : String) : Bool :=
  match urlsplit_netloc url with
  | some (_ :: _) => true
  | _ => false

/-- A URL with a nonempty netloc is left unchanged by the normalizer. -/
lemma convert_eq_self_of_hasNetloc {url : String}
    (h : hasNetloc url = true) : convert_to_absolute_url url = url := by
  unfold hasNetloc at h
  unfold convert_to_absolute_url
  split at h
  · rename_i heq
    rw [heq]
  · exact absurd h (by simp)

/-- C4.  Normalization is *not* idempotent: on the empty string the first pass
prepends `http://`, and `urlsplit("http://").netloc` is empty, so a second
pass prepends `http://` again. -/
theorem C4_counterexample :
    convert_to_absolute_url (convert_to_absolute_url "") ≠
      convert_to_absolute_url "" ∧
    convert_to_absolute_url "" = "http://" ∧
    convert_to_absolute_url (convert_to_absolute_url "") = "http://http://" := by
  refine ⟨by decide, by decide, by decide⟩

/-- C4 (amended).  `convert_to_absolute_url` is idempotent on every input it
returns unchanged and on every input whose normalized form has a nonempty
network-location component; it is not idempotent on inputs (such as `""`, or
strings beginning with `/`, `?` or `#`) where prepending `http://` still
yields no netloc. -/
theorem C4_convert_idempotent_of_netloc (url : String)
    (h : hasNetloc (convert_to_absolute_url url) = true ∨
      convert_to_absolute_url url = url) :
    convert_to_absolute_url (convert_to_absolute_url url) =
      convert_to_absolute_url url := by
  rcases h with h | h
  · exact convert_eq_self_of_hasNetloc h
  · rw [h, h]

/-- C4 witness: idempotence at the concrete relative URL `python.org`. -/
theorem C4_witness :
    convert_to_absolute_url (convert_to_absolute_url "python.org") =
      convert_to_absolute_url "python.org" :=
  C4_convert_idempotent_of_netloc "python.org" (Or.inl (by decide))

/-! ## Properties of sampling without replacement -/

/-- Sampling a position of a duplicate-free list yields an element absent from
the remainder. -/
lemma get_not_mem_eraseIdx {l : List Char} (h : l.Nodup) (i : Nat)
    (hi : i < l.length) : l.get ⟨i, hi⟩ ∉ l.eraseIdx i := by
  intro hmem
  rw [List.eraseIdx_eq_take_drop_succ] at hmem
  have hd : l.drop i = l.get ⟨i, hi⟩ :: l.drop (i + 1) := by
    rw [List.drop_eq_getElem_cons hi]
    rfl
  have hl : l = l.take i ++ l.get ⟨i, hi⟩ :: l.drop (i + 1) := by
    conv_lhs => rw [← List.take_append_drop i l]
    rw [hd]
  rw [hl] at h
  rcases List.mem_append.mp hmem with hm | hm
  · exact (List.nodup_append.mp h).2.2 hm (List.mem_cons_self _ _)
  · exact (List.nodup_cons.mp (List.nodup_append.mp h).2.1).1 hm

/-- Sampling draws as many elements as requested while the pool suffices. -/
lemma sampleK_length : ∀ (n : Nat) (pool : List Char) (idxs : List Nat),
    n ≤ pool.length → (sampleK pool n idxs).length = n
  | 0, _, _, _ => rfl
  | n + 1, pool, idxs, h => by
    unfold sampleK
    split
    · rename_i h0
      omega
    · rename_i m hm
      simp only [List.length_cons]
      rw [sampleK_length n _ _ (by
        rw [List.length_eraseIdx_of_lt (Nat.mod_lt _ (by omega))]
        omega)]

/-- Every sampled element comes from the pool. -/
lemma sampleK_subset : ∀ (n : Nat) (pool : List Char) (idxs : List Nat)
    (c : Char), c ∈ sampleK pool n idxs → c ∈ pool
  | 0, _, _, c, h => absurd h (List.not_mem_nil c)
  | n + 1, pool, idxs, c, h => by
    revert h
    unfold sampleK
    split
    · intro h
      exact absurd h (List.not_mem_nil c)
    · intro h
      rcases List.mem_cons.mp h with h | h
      · rw [h]
        exact List.get_mem _ _ _
      · exact List.eraseIdx_subset _ _ (sampleK_subset n _ _ c h)

/-- Sampling without replacement from a duplicate-free pool never repeats an
element. -/
lemma sampleK_nodup : ∀ (n : Nat) (pool : List Char) (idxs : List Nat),
    pool.Nodup → (sampleK pool n idxs).Nodup
  | 0, _, _, _ => List.nodup_nil
  | n + 1, pool, idxs, hp => by
    unfold sampleK
    split
    · exact List.nodup_nil
    · rename_i m hm
      refine List.nodup_cons.mpr ⟨?_, sampleK_nodup n _ _ (hp.eraseIdx _)⟩
      intro hmem
      exact get_not_mem_eraseIdx hp _ _ (sampleK_subset n _ _ _ hmem)

/-- Conversely, every duplicate-free word over the pool is reachable by some
sequence of index draws: the sampling procedure's candidate space is exactly
the duplicate-free words. -/
lemma sampleK_complete : ∀ (l pool : List Char), pool.Nodup → l.Nodup →
    (∀ c ∈ l, c ∈ pool) → ∃ idxs, sampleK pool l.length idxs = l
  | [], _, _, _, _ => ⟨[], rfl⟩
  | c :: rest, pool, hp, hl, hsub => by
    have hc : c ∈ pool := hsub c (List.mem_cons_self c rest)
    have hi : pool.indexOf c < pool.length := List.indexOf_lt_length.mpr hc
    have hrest : ∀ x ∈ rest, x ∈ pool.erase c := by
      intro x hx
      have hxc : x ≠ c := by
        intro he
        subst he
        exact (List.nodup_cons.mp hl).1 hx
      exact (List.mem_erase_of_ne hxc).mpr (hsub x (List.mem_cons_of_mem _ hx))
    obtain ⟨idxs, hidxs⟩ := sampleK_complete rest (pool.erase c) (hp.erase c)
      (List.nodup_cons.mp hl).2 hrest
    refine ⟨pool.indexOf c :: idxs, ?_⟩
    simp only [List.length_cons]
    unfold sampleK
    split
    · rename_i h0
      omega
    · rename_i m hm
      simp only [List.headD_cons, List.tail_cons]
      have hmod : pool.indexOf c % pool.length = pool.indexOf c :=
        Nat.mod_eq_of_lt hi
      congr 1
      · have h2 : (⟨pool.indexOf c % pool.length, Nat.mod_lt _ (by omega)⟩ :
            Fin pool.length) = ⟨pool.indexOf c, hi⟩ := Fin.ext hmod
        rw [h2, List.get_eq_getElem]
        exact List.getElem_indexOf hi
      · rw [show pool.indexOf c % pool.length = pool.indexOf c from hmod,
          List.eraseIdx_indexOf_eq_erase]
        exact hidxs

/-! ## Properties of the Code Generator loop -/

/-- When every candidate in reach collides, the retry loop consumes its whole
budget, performing one existence check per attempt, and reports exhaustion. -/
lemma genLoop_exhausted (store : Store) (len : Nat) (draws : Nat → List Nat) :
    ∀ (rem att checks : Nat),
      (∀ i, i < rem → filterExists store (candidate len draws (att + i)) = true) →
      genLoop store len draws att rem checks = (.exhausted, checks + rem)
  | 0, att, checks, _ => rfl
  | rem + 1, att, checks, h => by
    unfold genLoop
    have h0 : filterExists store (candidate len draws att) = true := by
      have := h 0 (by omega)
      simpa using this
    simp only [h0, if_true]
    have hrec := genLoop_exhausted store len draws rem (att + 1) (checks + 1)
      (fun i hi => by
        have := h (i + 1) (by omega)
        rw [show att + (i + 1) = att + 1 + i by omega] at this
        exact this)
    rw [hrec]
    congr 1
    omega

/-- The retry loop returns the first non-colliding candidate, having performed
one existence check per attempt up to and including the successful one. -/
lemma genLoop_first_absent (store : Store) (len : Nat) (draws : Nat → List Nat) :
    ∀ (rem att checks i : Nat), i < rem →
      filterExists store (candidate len draws (att + i)) = false →
      (∀ j, j < i → filterExists store (candidate len draws (att + j)) = true) →
      genLoop store len draws att rem checks =
        (.ok (candidate len draws (att + i)), checks + i + 1)
  | 0, _, _, i, hi, _, _ => absurd hi (by omega)
  | rem + 1, att, checks, 0, _, habs, _ => by
    unfold genLoop
    rw [show att + 0 = att by omega] at habs
    simp only [habs, Bool.false_eq_true, if_false]
    rw [show att + 0 = att by omega]
  | rem + 1, att, checks, i + 1, hi, habs, hcoll => by
    unfold genLoop
    have h0 : filterExists store (candidate len draws att) = true := by
      have := hcoll 0 (by omega)
      simpa using this
    simp only [h0, if_true]
    have hrec := genLoop_first_absent store len draws rem (att + 1) (checks + 1) i
      (by omega)
      (by rw [show att + 1 + i = att + (i + 1) by omega]; exact habs)
      (fun j hj => by
        have := hcoll (j + 1) (by omega)
        rw [show att + (j + 1) = att + 1 + j by omega] at this
        exact this)
    rw [hrec]
    rw [show att + 1 + i = att + (i + 1) by omega]
    congr 1
    omega

/-- Every code the retry loop returns is one of the drawn candidates. -/
lemma genLoop_ok_inv (store : Store) (len : Nat) (draws : Nat → List Nat) :
    ∀ (rem att checks : Nat) (c : String) (n : Nat),
      genLoop store len draws att rem checks = (.ok c, n) →
      ∃ i, i < rem ∧ c = candidate len draws (att + i)
  | 0, _, _, _, _, h => by
    exact absurd (congrArg Prod.fst h) (by simp [genLoop])
  | rem + 1, att, checks, c, n, h => by
    rw [genLoop] at h
    by_cases hc : filterExists store (candidate len draws att) = true
    · rw [hc] at h
      simp only [if_true] at h
      obtain ⟨i, hi, hceq⟩ := genLoop_ok_inv store len draws rem (att + 1)
        (checks + 1) c n h
      exact ⟨i + 1, by omega, by rw [show att + (i + 1) = att + 1 + i by omega]; exact hceq⟩
    · rw [Bool.not_eq_true] at hc
      rw [hc] at h
      simp only [Bool.false_eq_true, if_false, Prod.mk.injEq] at h
      exact ⟨0, by omega, by rw [show att + 0 = att by omega]; exact (GenResult.ok.inj h.1).symm⟩

/-- C6.  Code generation always terminates within the fixed budget of
`RETRY_LIMIT = 5` attempts: it returns the first drawn candidate absent from
the store (performing one existence check per draw up to that point), and when
all five candidates collide it performs exactly five existence checks and then
fails with the `RuntimeError` (`exhausted`) — never an empty or guessed
code. -/
theorem C6_generation_bounded (store : Store) (draws : Nat → List Nat) (len : Nat) :
    ((∀ i, i < RETRY_LIMIT → filterExists store (candidate len draws i) = true) →
      generate_random_short_url store draws len = (.exhausted, RETRY_LIMIT)) ∧
    (∀ i, i < RETRY_LIMIT → filterExists store (candidate len draws i) = false →
      (∀ j, j < i → filterExists store (candidate len draws j) = true) →
      generate_random_short_url store draws len = (.ok (candidate len draws i), i + 1)) ∧
    (∀ c n, generate_random_short_url store draws len = (.ok c, n) →
      ∃ i, i < RETRY_LIMIT ∧ c = candidate len draws i) := by
  refine ⟨?_, ?_, ?_⟩
  · intro h
    unfold generate_random_short_url
    have := genLoop_exhausted store len draws RETRY_LIMIT 0 0 (fun i hi => by
      have := h i hi
      simpa using this)
    simpa using this
  · intro i hi habs hcoll
    unfold generate_random_short_url
    have := genLoop_first_absent store len draws RETRY_LIMIT 0 0 i hi
      (by simpa using habs) (fun j hj => by have := hcoll j hj; simpa using this)
    simpa using this
  · intro c n h
    obtain ⟨i, hi, hc⟩ := genLoop_ok_inv store len draws RETRY_LIMIT 0 0 c n h
    exact ⟨i, hi, by simpa using hc⟩

/-- C6 witness: on the empty store with a constant draw stream the very first
candidate is free, so generation succeeds on its first existence check. -/
theorem C6_witness :
    generate_random_short_url [] (fun _ => []) 6 =
      (.ok (candidate 6 (fun _ => []) 0), 1) :=
  (C6_generation_bounded [] (fun _ => []) 6).2.1 0 (by decide) (by decide)
    (fun j hj => absurd hj (by omega))

/-- Every code a successful generation returns is a 6-character `[A-Za-z0-9]`
string, hence passes `is_valid_short_url` (it cannot be the 3-character
reserved word). -/
lemma generated_code_valid (store : Store) (draws : Nat → List Nat)
    (c : String) (n : Nat)
    (h : generate_random_short_url store draws = (.ok c, n)) :
    is_valid_short_url c = true ∧ c.data.length = DEFAULT_SHORT_URL_LENGTH := by
  obtain ⟨i, _, hc⟩ :=
    genLoop_ok_inv store DEFAULT_SHORT_URL_LENGTH draws RETRY_LIMIT 0 0 c n h
  have hdata : c.data = sampleK CHAR_SET DEFAULT_SHORT_URL_LENGTH (draws (0 + i)) := by
    rw [hc]
    rfl
  have hlen : c.data.length = DEFAULT_SHORT_URL_LENGTH := by
    rw [hdata]
    exact sampleK_length DEFAULT_SHORT_URL_LENGTH CHAR_SET _ (by decide)
  refine ⟨?_, hlen⟩
  refine is_valid_short_url_of_charset (by rw [hlen]; decide) (by rw [hlen]; decide) ?_ ?_
  · rw [hdata]
    refine List.all_eq_true.mpr fun ch hch => ?_
    have hall : ∀ x ∈ CHAR_SET, isShortUrlChar x = true := by decide
    exact hall ch (sampleK_subset DEFAULT_SHORT_URL_LENGTH CHAR_SET _ ch hch)
  · intro he
    rw [he] at hlen
    exact absurd hlen (by decide)

/-- C8.  Every code returned by a successful `generate_random_short_url` call
(default length 6) satisfies `is_valid_short_url`; consequently a create
request with an empty `short_url` can never fail the code-validation step once
generation has succeeded. -/
theorem C8_generated_code_passes_validation :
    (∀ (store : Store) (draws : Nat → List Nat) (c : String) (n : Nat),
      generate_random_short_url store draws = (.ok c, n) →
      is_valid_short_url c = true ∧ c.data.length = DEFAULT_SHORT_URL_LENGTH) ∧
    (∀ (store : Store) (draws : Nat → List Nat) (long c : String) (n : Nat),
      generate_random_short_url store draws = (.ok c, n) →
      ∀ s, (create store draws long "").1 ≠ .invalidShortUrl s) := by
  refine ⟨fun store draws c n h => generated_code_valid store draws c n h, ?_⟩
  intro store draws long c n h s
  have hvalid := (generated_code_valid store draws c n h).1
  unfold create
  by_cases hlu : is_valid_long_url (convert_to_absolute_url long) = false
  · simp only [hlu, if_true]
    intro hcon
    cases hcon
  · simp only [hlu, if_false, if_pos rfl, h, hvalid]
    by_cases hser :
        serializer_is_valid (convert_to_absolute_url long) c = false <;>
      by_cases hex : filterExists store c = true <;>
        simp only [hser, hex, hvalid, Bool.true_eq_false, Bool.false_eq_true,
          if_true, if_false, reduceIte] <;>
      intro hcon <;> cases hcon

/-- C8 witness: on the empty store generation succeeds with a concrete code
and the create path accepts it. -/
theorem C8_witness :
    ∀ s, (create [] (fun _ => []) "w3.org" "").1 ≠ .invalidShortUrl s :=
  C8_generated_code_passes_validation.2 [] (fun _ => []) "w3.org"
    (candidate 6 (fun _ => []) 0) 1 (by decide)

/-- C9.  Candidates are drawn without replacement: every drawn candidate has
pairwise-distinct characters taken from the 62-character alphabet, every
duplicate-free word over the alphabet is a possible draw, and for length 6 the
resulting candidate space has size `62·61·60·59·58·57` (the falling
factorial), strictly smaller than `62^6`. -/
theorem C9_candidates_without_replacement :
    (∀ (len : Nat) (draws : Nat → List Nat) (i : Nat),
      ((candidate len draws i).data).Nodup ∧
        ∀ ch ∈ (candidate len draws i).data, ch ∈ CHAR_SET) ∧
    (∀ l : List Char, l.Nodup → (∀ ch ∈ l, ch ∈ CHAR_SET) →
      ∃ idxs, sampleK CHAR_SET l.length idxs = l) ∧
    Nat.descFactorial CHAR_SET.length DEFAULT_SHORT_URL_LENGTH =
      62 * 61 * 60 * 59 * 58 * 57 ∧
    62 * 61 * 60 * 59 * 58 * 57 ≠ 62 ^ 6 := by
  refine ⟨?_, ?_, by decide, by decide⟩
  · intro len draws i
    exact ⟨sampleK_nodup len CHAR_SET (draws i) (by decide),
      fun ch hch => sampleK_subset len CHAR_SET (draws i) ch hch⟩
  · intro l hl hsub
    exact sampleK_complete l CHAR_SET (by decide) hl hsub

/-- C9 witness: the duplicate-free word `xyz` over the alphabet is reachable
by some draw. -/
theorem C9_witness : ∃ idxs, sampleK CHAR_SET ("xyz".data).length idxs = "xyz".data :=
  C9_candidates_without_replacement.2.1 "xyz".data (by decide) (by decide)

/-! ## Store lemmas -/

/-- Inversion for a successful `objects.get`: exactly one row matches. -/
lemma objectsGet_ok_iff {store : Store} {c : String} {r : UrlRecord} :
    objectsGet store c = .ok r ↔
      store.filter (fun x => decide (x.short_url = c)) = [r] := by
  unfold objectsGet
  cases h : store.filter fun x => decide (x.short_url = c) with
  | nil => simp
  | cons a tl =>
    cases tl with
    | nil => simp
    | cons b tl2 => simp

/-- The row a successful `objects.get` returns carries the looked-up code. -/
lemma objectsGet_ok_short_url {store : Store} {c : String} {r : UrlRecord}
    (h : objectsGet store c = .ok r) : r.short_url = c := by
  have hf := objectsGet_ok_iff.mp h
  have hmem : r ∈ store.filter fun x => decide (x.short_url = c) := by
    rw [hf]
    exact List.mem_cons_self _ _
  exact of_decide_eq_true (List.mem_filter.mp hmem).2

/-- When the code is free, an existence check reports false exactly when no
row matches. -/
lemma filter_eq_nil_of_not_filterExists {store : Store} {c : String}
    (h : filterExists store c = false) :
    store.filter (fun x => decide (x.short_url = c)) = [] := by
  refine List.filter_eq_nil_iff.mpr fun a ha => ?_
  have := List.any_eq_false.mp h a ha
  simpa using this

/-- An insert of a fresh code makes `objects.get` return exactly that row. -/
lemma objectsGet_insertRecord {store : Store} {r : UrlRecord}
    (h : filterExists store r.short_url = false) :
    objectsGet (insertRecord store r) r.short_url = .ok r := by
  refine objectsGet_ok_iff.mpr ?_
  unfold insertRecord
  rw [List.filter_append, filter_eq_nil_of_not_filterExists h]
  simp

/-- Writing back a mutated row rewrites every matching row (and there is
exactly one in the intended uses) and touches nothing else. -/
lemma filter_saveUpdated (store : Store) (r2 : UrlRecord) :
    (saveUpdated store r2).filter (fun x => decide (x.short_url = r2.short_url)) =
      (store.filter (fun x => decide (x.short_url = r2.short_url))).map
        (fun _ => r2) := by
  induction store with
  | nil => rfl
  | cons x xs ih =>
    unfold saveUpdated at ih ⊢
    simp only [List.map_cons, List.filter_cons]
    by_cases hx : x.short_url = r2.short_url
    · simp only [hx, decide_True, if_pos rfl, reduceIte]
      rw [ih]
      simp
    · simp only [hx, decide_False, reduceIte]
      rw [ih]
      simp [hx]

/-- Saving a row with the same code as a previously fetched one leaves the
store with that code mapped to the saved row. -/
lemma objectsGet_saveUpdated {store : Store} {c : String} {r : UrlRecord}
    (h : objectsGet store c = .ok r) (r2 : UrlRecord)
    (hc : r2.short_url = r.short_url) :
    objectsGet (saveUpdated store r2) c = .ok r2 := by
  have hr : r.short_url = c := objectsGet_ok_short_url h
  have hf := objectsGet_ok_iff.mp h
  subst hr
  refine objectsGet_ok_iff.mpr ?_
  simp only [← hc] at hf ⊢
  rw [filter_saveUpdated, hf]
  rfl

/-- Resolving an existing code redirects to its stored target and bumps the
stored row's counter by exactly one. -/
lemma handle_redirect_ok {store : Store} {c : String} {r : UrlRecord}
    (h : objectsGet store c = .ok r) :
    (handle_redirect store c).1 = .redirect r.long_url ∧
      (handle_redirect store c).2 =
        saveUpdated store { r with visit_count := r.visit_count + 1 } ∧
      objectsGet (handle_redirect store c).2 c =
        .ok { r with visit_count := r.visit_count + 1 } := by
  unfold handle_redirect
  rw [h]
  exact ⟨rfl, rfl, objectsGet_saveUpdated h _ rfl⟩

/-! ## Inversion of the Allocation Engine -/

/-- Case analysis on `create`: every failure path returns the store untouched;
the one success path appends exactly the one new record, whose code was free
and whose counter starts at zero. -/
lemma create_cases (store : Store) (draws : Nat → List Nat) (l s : String) :
    ((∀ r, (create store draws l s).1 ≠ .created r) ∧
      (create store draws l s).2 = store) ∨
    (∃ r, (create store draws l s).1 = .created r ∧ r.visit_count = 0 ∧
      r.long_url = convert_to_absolute_url l ∧
      filterExists store r.short_url = false ∧
      (create store draws l s).2 = store ++ [r]) := by
  unfold create
  by_cases h1 : is_valid_long_url (convert_to_absolute_url l) = false
  · rw [if_pos h1]
    exact Or.inl ⟨(fun r hcon => by cases hcon), rfl⟩
  · rw [if_neg h1]
    cases hg : (if s = "" then (generate_random_short_url store draws).1
        else GenResult.ok s) with
    | exhausted =>
      dsimp only
      exact Or.inl ⟨(fun r hcon => by cases hcon), rfl⟩
    | ok su =>
      dsimp only
      by_cases h2 : is_valid_short_url su = false
      · rw [if_pos h2]
        exact Or.inl ⟨(fun r hcon => by cases hcon), rfl⟩
      · rw [if_neg h2]
        by_cases h3 : serializer_is_valid (convert_to_absolute_url l) su = false
        · rw [if_pos h3]
          exact Or.inl ⟨(fun r hcon => by cases hcon), rfl⟩
        · rw [if_neg h3]
          by_cases h4 : filterExists store su = true
          · rw [if_pos h4]
            exact Or.inl ⟨(fun r hcon => by cases hcon), rfl⟩
          · rw [if_neg h4]
            rw [Bool.not_eq_true] at h4
            exact Or.inr ⟨⟨convert_to_absolute_url l, su, 0⟩, rfl, rfl, rfl, h4, rfl⟩

/-- Inversion of a successful create. -/
lemma create_created_inv {store : Store} {draws : Nat → List Nat}
    {l s : String} {r : UrlRecord}
    (h : (create store draws l s).1 = .created r) :
    r.visit_count = 0 ∧ r.long_url = convert_to_absolute_url l ∧
      filterExists store r.short_url = false ∧
      (create store draws l s).2 = store ++ [r] := by
  rcases create_cases store draws l s with ⟨hno, _⟩ | ⟨r2, hfst, h0, hl, hfree, hsnd⟩
  · exact absurd h (hno r)
  · have : r2 = r := CreateResult.created.inj (hfst.symm.trans h)
    subst this
    exact ⟨h0, hl, hfree, hsnd⟩

/-- C2.  Round trip: every record accepted by a successful create starts with
`visit_count = 0` and stores the normalized long URL; a subsequent resolve of
its code redirects exactly to that stored URL and leaves the mapping with
`visit_count = 1`; and in general each successful resolve increments the
resolved mapping's counter by exactly one. -/
theorem C2_round_trip :
    (∀ (store : Store) (draws : Nat → List Nat) (l s : String) (r : UrlRecord),
      (create store draws l s).1 = .created r →
      r.visit_count = 0 ∧ r.long_url = convert_to_absolute_url l ∧
        (handle_redirect (create store draws l s).2 r.short_url).1 =
          .redirect r.long_url ∧
        objectsGet (handle_redirect (create store draws l s).2 r.short_url).2
          r.short_url = .ok { r with visit_count := 1 }) ∧
    (∀ (store : Store) (c : String) (r : UrlRecord),
      objectsGet store c = .ok r →
      (handle_redirect store c).1 = .redirect r.long_url ∧
        objectsGet (handle_redirect store c).2 c =
          .ok { r with visit_count := r.visit_count + 1 }) := by
  constructor
  · intro store draws l s r h
    obtain ⟨h0, hl, hfree, hsnd⟩ := create_created_inv h
    have hget : objectsGet (create store draws l s).2 r.short_url = .ok r := by
      rw [hsnd]
      exact objectsGet_insertRecord hfree
    obtain ⟨hred, _, hbump⟩ := handle_redirect_ok hget
    refine ⟨h0, hl, hred, ?_⟩
    rw [hbump, h0]
  · intro store c r h
    obtain ⟨hred, _, hbump⟩ := handle_redirect_ok h
    exact ⟨hred, hbump⟩

/-- C2 witness: creating the mapping `short ↦ http://w3.org` from the empty
store and resolving it once redirects to the stored URL with counter 1. -/
theorem C2_witness :
    (⟨"http://w3.org", "short", 0⟩ : UrlRecord).visit_count = 0 ∧
      (⟨"http://w3.org", "short", 0⟩ : UrlRecord).long_url =
        convert_to_absolute_url "w3.org" ∧
      (handle_redirect (create [] (fun _ => []) "w3.org" "short").2 "short").1 =
        .redirect "http://w3.org" ∧
      objectsGet (handle_redirect
          (create [] (fun _ => []) "w3.org" "short").2 "short").2 "short" =
        .ok ⟨"http://w3.org", "short", 1⟩ :=
  C2_round_trip.1 [] (fun _ => []) "w3.org" "short"
    ⟨"http://w3.org", "short", 0⟩ (by decide)

/-- C5.  Write discipline of `create`: every failure path leaves the store
exactly as it was (zero writes, so every existing record and its counter are
unchanged), and the single success path performs exactly one write — the
append of the one new record; in particular a create whose explicit code
already exists returns `SHORT_URL_ALREADY_EXISTS` and writes nothing. -/
theorem C5_create_write_discipline :
    (∀ (store : Store) (draws : Nat → List Nat) (l s : String),
      (∃ r, (create store draws l s).1 = .created r ∧
        (create store draws l s).2 = store ++ [r]) ∨
      ((∀ r, (create store draws l s).1 ≠ .created r) ∧
        (create store draws l s).2 = store)) ∧
    (∀ (store : Store) (draws : Nat → List Nat) (l s : String),
      is_valid_long_url (convert_to_absolute_url l) = true →
      s ≠ "" →
      is_valid_short_url s = true →
      serializer_is_valid (convert_to_absolute_url l) s = true →
      filterExists store s = true →
      create store draws l s = (.shortUrlAlreadyExists s, store)) := by
  constructor
  · intro store draws l s
    rcases create_cases store draws l s with ⟨hno, hsnd⟩ | ⟨r, hfst, _, _, _, hsnd⟩
    · exact Or.inr ⟨hno, hsnd⟩
    · exact Or.inl ⟨r, hfst, hsnd⟩
  · intro store draws l s h1 h2 h3 h4 h5
    unfold create
    rw [if_neg (by rw [h1]; exact fun hcon => by cases hcon)]
    rw [if_neg h2]
    dsimp only
    rw [if_neg (by rw [h3]; exact fun hcon => by cases hcon)]
    rw [if_neg (by rw [h4]; exact fun hcon => by cases hcon)]
    rw [if_pos h5]

/-- C5 witness: with `short` already mapped (counter 7), a create for `short`
returns the conflict and the store — including the counter — is untouched. -/
theorem C5_witness :
    create [⟨"http://a.org", "short", 7⟩] (fun _ => []) "w3.org" "short" =
      (.shortUrlAlreadyExists "short", [⟨"http://a.org", "short", 7⟩]) :=
  C5_create_write_discipline.2 [⟨"http://a.org", "short", 7⟩] (fun _ => [])
    "w3.org" "short" (by decide) (by decide) (by decide) (by decide) (by decide)

/-! ## Concurrency results -/

/-- C1.  The store does not enforce code uniqueness: `short_url` has no
unique constraint, so the insert step accepts a duplicate, and under the
interleaving check-A, check-B, insert-A, insert-B two concurrent creates of
the same code both succeed, leaving two live mappings for `dup`. -/
theorem C1_counterexample :
    (runCreateSchedule [false, true, false, true]
        ⟨⟨"http://a.org", "dup", 0⟩, .beforeCheck⟩
        ⟨⟨"http://b.org", "dup", 0⟩, .beforeCheck⟩ []).1.phase = .succeeded ∧
    (runCreateSchedule [false, true, false, true]
        ⟨⟨"http://a.org", "dup", 0⟩, .beforeCheck⟩
        ⟨⟨"http://b.org", "dup", 0⟩, .beforeCheck⟩ []).2.1.phase = .succeeded ∧
    ¬ uniqueCodes (runCreateSchedule [false, true, false, true]
        ⟨⟨"http://a.org", "dup", 0⟩, .beforeCheck⟩
        ⟨⟨"http://b.org", "dup", 0⟩, .beforeCheck⟩ []).2.2 ∧
    insertRecord [⟨"http://a.org", "dup", 0⟩] ⟨"http://b.org", "dup", 0⟩ =
      [⟨"http://a.org", "dup", 0⟩, ⟨"http://b.org", "dup", 0⟩] ∧
    ¬ uniqueCodes [⟨"http://a.org", "dup", 0⟩, ⟨"http://b.org", "dup", 0⟩] :=
  ⟨by decide, by decide, by decide, by decide, by decide⟩

/-- C1 (amended).  Uniqueness is enforced only by the engine's existence check
before the insert, not by the store: under sequential execution every create
preserves at-most-one-mapping-per-code, and of two creates of the same fresh
code run one after the other the first succeeds and the second ends in the
`ShortUrlAlreadyExists` conflict — but the store-level insert itself accepts
duplicates, so interleaved creates can break the invariant. -/
theorem C1_engine_side_uniqueness :
    (∀ (store : Store) (draws : Nat → List Nat) (l s : String),
      uniqueCodes store → uniqueCodes (create store draws l s).2) ∧
    (∀ (store : Store) (r : UrlRecord),
      filterExists store r.short_url = false →
      runCreateSchedule [false, false, true, true]
        ⟨r, .beforeCheck⟩ ⟨r, .beforeCheck⟩ store =
        (⟨r, .succeeded⟩, ⟨r, .conflicted⟩, store ++ [r])) := by
  constructor
  · intro store draws l s hu
    rcases create_cases store draws l s with ⟨_, hsnd⟩ | ⟨r, _, _, _, hfree, hsnd⟩
    · rw [hsnd]
      exact hu
    · rw [hsnd]
      unfold uniqueCodes at hu ⊢
      rw [List.map_append, List.nodup_append]
      refine ⟨hu, by simp, ?_⟩
      intro a ha hb
      simp only [List.map_cons, List.map_nil, List.mem_singleton] at hb
      subst hb
      obtain ⟨x, hx, hxeq⟩ := List.mem_map.mp ha
      have hany : filterExists store r.short_url = true :=
        List.any_eq_true.mpr ⟨x, hx, decide_eq_true hxeq⟩
      rw [hfree] at hany
      cases hany
  · intro store r h
    have hB : filterExists (store ++ [r]) r.short_url = true :=
      List.any_eq_true.mpr ⟨r, by simp, by simp⟩
    simp [runCreateSchedule, stepCreate, h, hB, insertRecord]

/-- C1 witness: from the empty store, the sequential pair of creates of `dup`
yields one success, one conflict, and a single stored row. -/
theorem C1_witness :
    runCreateSchedule [false, false, true, true]
        ⟨⟨"http://a.org", "dup", 0⟩, .beforeCheck⟩
        ⟨⟨"http://a.org", "dup", 0⟩, .beforeCheck⟩ [] =
      (⟨⟨"http://a.org", "dup", 0⟩, .succeeded⟩,
        ⟨⟨"http://a.org", "dup", 0⟩, .conflicted⟩,
        [⟨"http://a.org", "dup", 0⟩]) :=
  C1_engine_side_uniqueness.2 [] ⟨"http://a.org", "dup", 0⟩ (by decide)

/-- Sequential pair of redirects for the same code, as one schedule. -/
lemma runRedirect_sequential {store : Store} {c : String} {r : UrlRecord}
    (h : objectsGet store c = .ok r) :
    runRedirectSchedule [false, false, true, true]
        ⟨c, .beforeRead⟩ ⟨c, .beforeRead⟩ store =
      (⟨c, .done⟩, ⟨c, .done⟩,
        saveUpdated (saveUpdated store { r with visit_count := r.visit_count + 1 })
          { r with visit_count := r.visit_count + 2 }) := by
  have h1 : objectsGet (saveUpdated store { r with visit_count := r.visit_count + 1 }) c =
      .ok { r with visit_count := r.visit_count + 1 } :=
    objectsGet_saveUpdated h _ rfl
  simp [runRedirectSchedule, stepRedirect, h, h1]

/-- Interleaved pair of redirects: both read the same row before either
writes, so both write back the same incremented value. -/
lemma runRedirect_interleaved {store : Store} {c : String} {r : UrlRecord}
    (h : objectsGet store c = .ok r) :
    runRedirectSchedule [false, true, false, true]
        ⟨c, .beforeRead⟩ ⟨c, .beforeRead⟩ store =
      (⟨c, .done⟩, ⟨c, .done⟩,
        saveUpdated (saveUpdated store { r with visit_count := r.visit_count + 1 })
          { r with visit_count := r.visit_count + 1 }) := by
  simp [runRedirectSchedule, stepRedirect, h]

/-- C7.  The visit-count update is a read-modify-write performed by the view
(`visit_count += 1` in Python followed by `save()`), not a store-side atomic
increment: with the row counter at 0, the interleaved run of two completed
redirects leaves the counter at 1 — one update is lost — while the sequential
run leaves it at 2. -/
theorem C7_counterexample :
    (runRedirectSchedule [false, true, false, true]
        ⟨"c", .beforeRead⟩ ⟨"c", .beforeRead⟩ [⟨"http://x.org", "c", 0⟩]).1.phase =
      .done ∧
    (runRedirectSchedule [false, true, false, true]
        ⟨"c", .beforeRead⟩ ⟨"c", .beforeRead⟩ [⟨"http://x.org", "c", 0⟩]).2.1.phase =
      .done ∧
    (runRedirectSchedule [false, true, false, true]
        ⟨"c", .beforeRead⟩ ⟨"c", .beforeRead⟩ [⟨"http://x.org", "c", 0⟩]).2.2 =
      [⟨"http://x.org", "c", 1⟩] ∧
    (runRedirectSchedule [false, false, true, true]
        ⟨"c", .beforeRead⟩ ⟨"c", .beforeRead⟩ [⟨"http://x.org", "c", 0⟩]).2.2 =
      [⟨"http://x.org", "c", 2⟩] :=
  ⟨by decide, by decide, by decide, by decide⟩

/-- C7 (amended).  The engine's increment is a read-modify-write: run
sequentially, two redirects to an existing code add exactly 2 to its counter,
but the read-read-write-write interleaving of the same two redirects adds only
1 — the store never sees an atomic increment, so concurrent redirects can lose
updates. -/
theorem C7_read_modify_write_loses_updates (store : Store) (c : String)
    (r : UrlRecord) (h : objectsGet store c = .ok r) :
    objectsGet (runRedirectSchedule [false, false, true, true]
        ⟨c, .beforeRead⟩ ⟨c, .beforeRead⟩ store).2.2 c =
      .ok { r with visit_count := r.visit_count + 2 } ∧
    objectsGet (runRedirectSchedule [false, true, false, true]
        ⟨c, .beforeRead⟩ ⟨c, .beforeRead⟩ store).2.2 c =
      .ok { r with visit_count := r.visit_count + 1 } := by
  constructor
  · rw [runRedirect_sequential h]
    have h1 := objectsGet_saveUpdated h
      ({ r with visit_count := r.visit_count + 1 }) rfl
    exact objectsGet_saveUpdated h1 _ rfl
  · rw [runRedirect_interleaved h]
    have h1 := objectsGet_saveUpdated h
      ({ r with visit_count := r.visit_count + 1 }) rfl
    exact objectsGet_saveUpdated h1 _ rfl

/-- C7 witness: the amended statement at the concrete one-row store. -/
theorem C7_witness :
    objectsGet (runRedirectSchedule [false, false, true, true]
        ⟨"c", .beforeRead⟩ ⟨"c", .beforeRead⟩ [⟨"http://x.org", "c", 0⟩]).2.2 "c" =
      .ok ⟨"http://x.org", "c", 2⟩ ∧
    objectsGet (runRedirectSchedule [false, true, false, true]
        ⟨"c", .beforeRead⟩ ⟨"c", .beforeRead⟩ [⟨"http://x.org", "c", 0⟩]).2.2 "c" =
      .ok ⟨"http://x.org", "c", 1⟩ :=
  C7_read_modify_write_loses_updates [⟨"http://x.org", "c", 0⟩] "c"
    ⟨"http://x.org", "c", 0⟩ rfl

/-! ## Error handling of the retrieve view -/

/-- C10.  For a syntactically valid code, the bare `except:` in
`UrlRecordRetrieveView.get` maps *every* exception raised by the store lookup
— not only the record-not-found case — to the `SHORT_URL_MAPPING_NOT_EXISTS`
404 response, so an internal store fault is indistinguishable from a missing
mapping. -/
theorem C10_retrieve_catch_all (store : Store) (fault : Option String)
    (c : String) (e : StoreExc)
    (hvalid : is_valid_short_url c = true)
    (herr : retrieveGet store fault c = .error e) :
    retrieveView store fault c = .mappingNotExists c := by
  unfold retrieveView
  rw [if_pos hvalid, herr]

/-- C10 witness: an injected internal store fault on a valid code surfaces as
the mapping-not-exists 404. -/
theorem C10_witness :
    retrieveView [] (some "database connection lost") "abc" =
      .mappingNotExists "abc" :=
  C10_retrieve_catch_all [] (some "database connection lost") "abc"
    (.internalFault "database connection lost") (by decide) rfl

end UrlShortener
